import Mathlib

/-!
Verification of the uedit asset editor (src/main.rs) against its
natural-language specification.

The embedding below translates the in-memory asset graph model and the edit
and transplant operations of `main.rs` into executable Lean definitions:

* Name references are indices (`Nat`) into an ordered string table,
  resolved as `get_owned_content` does through the owning graph's table.
* A `PackageIndex` (signed reference index) is an `Int`: positive selects an
  export (1-based), negative selects an import (1-based, negated), 0 is null.
* Rust `f64` vector components are modelled as exact rationals (`Rat`); the
  numeric literals occurring in the settled claims are exactly representable.
* Rust `HashMap<i32, i32>` values are modelled as association lists
  (`List (Int × Int)`) with insert-overwrite semantics, so that `len`
  corresponds to list length and insertion order is explicit.
* A Rust `panic!` / `.unwrap()` failure or a failed `assert!` is modelled by
  `Option`/`Except` propagating `none` / an error value: the run aborts
  before any output is written.
-/

namespace Uedit

/-- Three floating-point components of a Vector or Rotator property,
modelled as exact rationals. -/
structure Vec3q where
  x : Rat
  y : Rat
  z : Rat
deriving DecidableEq, Repr

/-- The property tree of `unreal_asset::properties::Property`, restricted to
the kinds `main.rs` inspects.  Each property carries its `name` as an index
into the owning graph's name table.  `otherProp` stands for every remaining
kind (the `_` arms of the Rust matches). -/
inductive UProperty where
  | nameProp (name : Nat) (value : Nat)
  | objectProp (name : Nat) (value : Int)
  | structProp (name : Nat) (structType : Option Nat) (value : List UProperty)
  | arrayProp (name : Nat) (value : List UProperty)
  | vectorProp (name : Nat) (value : Vec3q)
  | rotatorProp (name : Nat) (value : Vec3q)
  | byteProp (name : Nat)
  | floatProp (name : Nat)
  | intProp (name : Nat)
  | boolProp (name : Nat)
  | enumProp (name : Nat) (value : Option Nat) (enumType : Option Nat)
  | multicastProp (name : Nat)
  | otherProp (name : Nat)

/-- The base record shared by every export
(`unreal_asset::exports::base_export::BaseExport`, the fields `main.rs`
touches). -/
structure BaseExport where
  object_name : Nat
  class_index : Int
  super_index : Int
  template_index : Int
  outer_index : Int
  create_before_serialization_dependencies : List Int
  serialization_before_create_dependencies : List Int
  create_before_create_dependencies : List Int
deriving DecidableEq, Repr

/-- An export.  `actors = some l` models a `LevelExport` whose `actors`
field is `l`; `actors = none` models a `NormalExport`.  Both variants carry
a normal property list in `unreal_asset`. -/
structure UExport where
  base : BaseExport
  actors : Option (List Int)
  properties : List UProperty

/-- An import record (`unreal_asset::Import`): three name references and the
reference index of the parent import. -/
structure UImport where
  class_package : Nat
  class_name : Nat
  object_name : Nat
  outer_index : Int
deriving DecidableEq, Repr

/-- The asset graph: one deduplicated name table, one import list, one
export list (`Asset` fields `get_name_map`, `imports`,
`asset_data.exports`). -/
structure AssetGraph where
  names : List String
  imports : List UImport
  exports : List UExport

/-- Resolve a name reference through a name table (`get_owned_content`).
References are graph-local and valid by the codec contract; an out-of-range
index resolves to the empty string in the model. -/
def resolveName (names : List String) (r : Nat) : String :=
  names.getD r ""

/-- First index of an exact string in the name table, if present
(the lookup half of `Asset::add_fname`). -/
def internIdx? (names : List String) (s : String) : Option Nat :=
  match names with
  | [] => none
  | t :: rest =>
    if t = s then some 0
    else (internIdx? rest s).map (fun i => i + 1)

/-- `Asset::add_fname`: return the index of an existing exact entry, else
append the string and return the new index.  The table only grows. -/
def addFName (g : AssetGraph) (s : String) : AssetGraph × Nat :=
  match internIdx? g.names s with
  | some i => (g, i)
  | none => ({ g with names := g.names ++ [s] }, g.names.length)

/-- `Asset::get_export`: a positive 1-based reference index selects
`exports[i-1]`; any other index yields `None`. -/
def getExport (g : AssetGraph) (i : Int) : Option UExport :=
  if 1 ≤ i then g.exports[(i - 1).toNat]? else none

/-- `Asset::get_import`: a negative reference index `i` selects
`imports[-i-1]`; any other index yields `None`. -/
def getImport (g : AssetGraph) (i : Int) : Option UImport :=
  if i ≤ -1 then g.imports[(-i - 1).toNat]? else none

/-- Resolved object name of the export at 0-based position `i`
(used by the actor-by-name scan and the dump). -/
def exportNameAt (g : AssetGraph) (i : Nat) : String :=
  match g.exports[i]? with
  | some e => resolveName g.names e.base.object_name
  | none => ""

/-- `find_persistent_level_index`: 0-based position of the first
`LevelExport` whose object name resolves to "PersistentLevel". -/
def findPersistentLevelIdx (g : AssetGraph) : Option Nat :=
  g.exports.findIdx? (fun e =>
    e.actors.isSome && (resolveName g.names e.base.object_name == "PersistentLevel"))

/-- The `--disable-import` edit (main.rs lines 180-191): every import whose
object name resolves to `name` gets `outer_index` set to 0. -/
def disableImport (g : AssetGraph) (name : String) : AssetGraph :=
  { g with
    imports := g.imports.map (fun im =>
      if resolveName g.names im.object_name = name then
        { im with outer_index := 0 }
      else im) }

/-- Replace the object name of the first import (in list order) that
resolves to `old`, returning the new list and whether a match was found
(the loop body of the `--rename-import` edit). -/
def renameFirst (names : List String) (old : String) (newRef : Nat) :
    List UImport → List UImport × Bool
  | [] => ([], false)
  | im :: rest =>
    if resolveName names im.object_name = old then
      ({ im with object_name := newRef } :: rest, true)
    else
      let r := renameFirst names old newRef rest
      (im :: r.1, r.2)

/-- The `--rename-import` edit (main.rs lines 193-210): intern the new name
first, then replace the object name of the first matching import.  The
returned flag records whether a match was found; a miss only prints a
warning and the run continues. -/
def renameImport (g : AssetGraph) (old new : String) : AssetGraph × Bool :=
  let p := addFName g new
  let r := renameFirst p.1.names old p.2 p.1.imports
  ({ p.1 with imports := r.1 }, r.2)

/-- Sequentially apply a list of rename requests, mirroring the
`for rename_import in &args.rename_import` loop: a miss never stops the
remaining requests. -/
def applyRenames (g : AssetGraph) : List (String × String) → AssetGraph
  | [] => g
  | (old, new) :: rest => applyRenames (renameImport g old new).1 rest

/-- Concrete import used by the rename examples: object name 0 ("Alpha"). -/
def egImp0 : UImport := { class_package := 1, class_name := 1, object_name := 0, outer_index := -1 }

/-- Concrete import used by the rename examples: object name 0 again, so it
shares the name of `egImp0` and must stay untouched by a first-match
rename. -/
def egImp1 : UImport := { class_package := 1, class_name := 1, object_name := 0, outer_index := 0 }

/-- Concrete graph with two imports both named "Alpha". -/
def egRen : AssetGraph :=
  { names := ["Alpha", "Beta"], imports := [egImp0, egImp1], exports := [] }

/-- Failure modes of the edit run.  Every constructor models a Rust
`panic!` / `.unwrap()` abort except `importNotFound`, which is only
reported (§7 propagation policy). -/
inductive EditErr where
  | importNotFound
  | structNotFound
  | propertyNotFound
  | malformed
  | exportNotFound
  | levelRootNotFound
  | indexUnderflow
  | numberParse
deriving DecidableEq, Repr

/-- The actor-by-name scan (main.rs lines 213-219): for each requested
name, in order, collect the 0-based position of every export whose object
name resolves to it. -/
def collectByName (g : AssetGraph) : List String → List Nat
  | [] => []
  | a :: rest =>
    ((List.range g.exports.length).filter (fun i => exportNameAt g i == a))
      ++ collectByName g rest

/-- The actor-by-index conversion (main.rs lines 220-223): each 1-based CLI
index is converted to 0-based with `i - 1`; the value 0 underflows the
unsigned subtraction and aborts the run. -/
def collectByIndex : List Nat → Except EditErr (List Nat)
  | [] => Except.ok []
  | n :: rest =>
    if n = 0 then Except.error EditErr.indexUnderflow
    else (collectByIndex rest).map (fun l => (n - 1) :: l)

/-- The actor-disable step given the collected 0-based indices (main.rs
lines 224-255).  When no selector resolved to any index the whole block is
skipped.  Otherwise every collected index is looked up (the report loop's
`get_export(..).unwrap()`, modelled as a validity check), the level root is
located, and every 1-based reference equal to a collected index + 1 is
filtered out of the level root's actor list.  Exports themselves are never
removed. -/
def disableActorsCore (g : AssetGraph) (idxs : List Nat) : Except EditErr AssetGraph :=
  if idxs.isEmpty then Except.ok g
  else if idxs.all (fun i => decide (i < g.exports.length)) then
    match findPersistentLevelIdx g with
    | none => Except.error EditErr.levelRootNotFound
    | some pl =>
      match g.exports[pl]? with
      | none => Except.error EditErr.levelRootNotFound
      | some plExp =>
        match plExp.actors with
        | none => Except.error EditErr.levelRootNotFound
        | some acts =>
          Except.ok { g with
            exports := g.exports.set pl ({ plExp with
              actors := some (acts.filter (fun a =>
                !((idxs.map (fun i => (i : Int) + 1)).contains a))) }) }
  else Except.error EditErr.exportNotFound

/-- The full actor-disable edit (main.rs lines 212-255): collect 0-based
indices from the name selectors, then from the numeric selectors, and run
the disable step on the combined list. -/
def disableActors (g : AssetGraph) (byName : List String) (byIndex : List Nat) :
    Except EditErr AssetGraph :=
  match collectByIndex byIndex with
  | Except.error e => Except.error e
  | Except.ok fromIdx => disableActorsCore g (collectByName g byName ++ fromIdx)

/-- Concrete single-export graph (one export named "A", no level root)
used by the actor-disable examples. -/
def egG8 : AssetGraph :=
  { names := ["A"],
    imports := [],
    exports := [{ base := { object_name := 0, class_index := 0, super_index := 0,
                            template_index := 0, outer_index := 0,
                            create_before_serialization_dependencies := [],
                            serialization_before_create_dependencies := [],
                            create_before_create_dependencies := [] },
                  actors := none, properties := [] }] }

/-- Base record with the given object name and every index zero, used by
the concrete example graphs. -/
def egBaseNamed (n : Nat) : BaseExport :=
  { object_name := n, class_index := 0, super_index := 0, template_index := 0,
    outer_index := 0,
    create_before_serialization_dependencies := [],
    serialization_before_create_dependencies := [],
    create_before_create_dependencies := [] }

/-- Level root of the actor-disable example: actors 2 and 3. -/
def egC6lvl : UExport :=
  { base := egBaseNamed 0, actors := some [2, 3], properties := [] }

/-- Three-export graph whose first export is the level root listing actors
2 and 3. -/
def egC6 : AssetGraph :=
  { names := ["PersistentLevel", "ActorA", "ActorB"],
    imports := [],
    exports := [egC6lvl,
      { base := egBaseNamed 1, actors := none, properties := [] },
      { base := egBaseNamed 2, actors := none, properties := [] }] }

/-- Parsed right-hand side of an edit expression: one token is a Name
value, three comma-separated numeric tokens are a vector value. -/
inductive EditVal where
  | nameVal (s : String)
  | vecVal (v : Vec3q)
deriving DecidableEq, Repr

/-- Parsed left-hand side of an edit expression: a 2-segment form selects
a field directly on the export, a 3-segment form selects a field inside a
named Struct property. -/
inductive EditSel where
  | direct (pname : String)
  | nested (sname pname : String)
deriving DecidableEq, Repr

/-- Rust `str::split(sep)`: split at every separator, keeping empty
segments. -/
def splitOnChar (sep : Char) : List Char → List (List Char)
  | [] => [[]]
  | c :: rest =>
    let r := splitOnChar sep rest
    if c = sep then [] :: r
    else
      match r with
      | [] => [[c]]
      | h :: t => (c :: h) :: t

/-- Rust `str::split_once(sep)`: split at the first separator only. -/
def splitOnceChar (sep : Char) : List Char → Option (List Char × List Char)
  | [] => none
  | c :: rest =>
    if c = sep then some ([], rest)
    else (splitOnceChar sep rest).map (fun p => (c :: p.1, p.2))

/-- Accumulate a decimal digit string. -/
def digitsToNatAux (acc : Nat) : List Char → Option Nat
  | [] => some acc
  | c :: rest =>
    if c.isDigit then digitsToNatAux (acc * 10 + (c.toNat - 48)) rest
    else none

/-- Parse a nonempty all-digit string. -/
def digitsToNat (cs : List Char) : Option Nat :=
  if cs.isEmpty then none else digitsToNatAux 0 cs

/-- Rust `i32::from_str_radix(s, 10)`: optional sign, then decimal
digits. -/
def parseIntChars (cs : List Char) : Option Int :=
  match cs with
  | '-' :: rest => (digitsToNat rest).map (fun n => -(n : Int))
  | '+' :: rest => (digitsToNat rest).map (fun n => (n : Int))
  | _ => (digitsToNat cs).map (fun n => (n : Int))

/-- Unsigned part of `f64` parsing, modelled on exact rationals:
digits with an optional fraction.  The exponent and non-finite forms of
the Rust parser are outside the modelled subset; the literals settled in
this development are plain digit strings, which `f64` parsing maps to the
same exact values. -/
def parseQCharsU (cs : List Char) : Option Rat :=
  match splitOnChar '.' cs with
  | [w] => (digitsToNat w).map (fun n => (n : Rat))
  | [w, f] =>
    match digitsToNat w, digitsToNat f with
    | some wn, some fn => some ((wn : Rat) + (fn : Rat) / ((10 : Rat) ^ f.length))
    | _, _ => none
  | _ => none

/-- Rust `str::parse::<f64>()` on the modelled decimal subset. -/
def parseQChars (cs : List Char) : Option Rat :=
  match cs with
  | '-' :: body => (parseQCharsU body).map (fun q => -q)
  | '+' :: body => parseQCharsU body
  | _ => parseQCharsU cs

/-- Parse an `--edit-export` expression (main.rs lines 260-295): split at
the first `=`; the right side must have one token (Name value) or three
comma-separated numeric tokens (vector value); the left side must have two
or three dot-separated segments, the first being the 1-based export
index. The failure order follows the source: the right side is checked
before the left side's segment count and index parse. -/
def parseEdit (expr : String) : Except EditErr (Int × EditSel × EditVal) :=
  match splitOnceChar '=' expr.toList with
  | none => Except.error EditErr.malformed
  | some (lhs, rhs) =>
    let valE : Except EditErr EditVal :=
      match splitOnChar ',' rhs with
      | [s] => Except.ok (EditVal.nameVal s.asString)
      | [a, b, c] =>
        match parseQChars a, parseQChars b, parseQChars c with
        | some x, some y, some z => Except.ok (EditVal.vecVal { x := x, y := y, z := z })
        | _, _, _ => Except.error EditErr.numberParse
      | _ => Except.error EditErr.malformed
    match valE with
    | Except.error e => Except.error e
    | Except.ok val =>
      match splitOnChar '.' lhs with
      | [i, p] =>
        match parseIntChars i with
        | none => Except.error EditErr.malformed
        | some idx => Except.ok (idx, EditSel.direct p.asString, val)
      | [i, s, p] =>
        match parseIntChars i with
        | none => Except.error EditErr.malformed
        | some idx => Except.ok (idx, EditSel.nested s.asString p.asString, val)
      | _ => Except.error EditErr.malformed

/-- Name-value search (main.rs lines 325-335): overwrite the value of the
first Name property whose name resolves to `pname`; `none` when no such
property exists. -/
def applyNameVal (names : List String) (pname : String) (vref : Nat) :
    List UProperty → Option (List UProperty)
  | [] => none
  | UProperty.nameProp n v :: rest =>
    if resolveName names n = pname then some (UProperty.nameProp n vref :: rest)
    else (applyNameVal names pname vref rest).map (fun r => UProperty.nameProp n v :: r)
  | p :: rest => (applyNameVal names pname vref rest).map (fun r => p :: r)

/-- Vector-value search (main.rs lines 336-360): overwrite the three
components of the first Rotator or Vector property whose name resolves to
`pname`; `none` when no such property exists. -/
def applyVec3 (names : List String) (pname : String) (v : Vec3q) :
    List UProperty → Option (List UProperty)
  | [] => none
  | UProperty.rotatorProp n w :: rest =>
    if resolveName names n = pname then some (UProperty.rotatorProp n v :: rest)
    else (applyVec3 names pname v rest).map (fun r => UProperty.rotatorProp n w :: r)
  | UProperty.vectorProp n w :: rest =>
    if resolveName names n = pname then some (UProperty.vectorProp n v :: rest)
    else (applyVec3 names pname v rest).map (fun r => UProperty.vectorProp n w :: r)
  | p :: rest => (applyVec3 names pname v rest).map (fun r => p :: r)

/-- Struct selection for the 3-segment form (main.rs lines 303-321): find
the first Struct property whose name resolves to `sname` and run the value
search inside it; a missing struct and a failed inner search abort with
different errors. -/
def editStructList (names : List String) (sname : String)
    (inner : List UProperty → Option (List UProperty)) :
    List UProperty → Except EditErr (List UProperty)
  | [] => Except.error EditErr.structNotFound
  | UProperty.structProp n st val :: rest =>
    if resolveName names n = sname then
      match inner val with
      | some val2 => Except.ok (UProperty.structProp n st val2 :: rest)
      | none => Except.error EditErr.propertyNotFound
    else (editStructList names sname inner rest).map
      (fun r => UProperty.structProp n st val :: r)
  | p :: rest => (editStructList names sname inner rest).map (fun r => p :: r)

/-- Write back the export selected by a positive 1-based reference
index. -/
def setExportAt (g : AssetGraph) (idx : Int) (e : UExport) : AssetGraph :=
  { g with exports := g.exports.set (idx - 1).toNat e }

/-- Apply a parsed edit (main.rs lines 274-366).  A Name value is interned
into the target graph's table before the export is looked up; the property
search then runs over the (possibly grown) table. -/
def applyEdit (g : AssetGraph) (idx : Int) (sel : EditSel) (val : EditVal) :
    Except EditErr AssetGraph :=
  let p : AssetGraph × (String → List UProperty → Option (List UProperty)) :=
    match val with
    | EditVal.nameVal s =>
      let q := addFName g s
      (q.1, fun pname props => applyNameVal q.1.names pname q.2 props)
    | EditVal.vecVal v => (g, fun pname props => applyVec3 g.names pname v props)
  match getExport p.1 idx with
  | none => Except.error EditErr.exportNotFound
  | some e =>
    let res : Except EditErr (List UProperty) :=
      match sel with
      | EditSel.direct pname =>
        match p.2 pname e.properties with
        | some ps => Except.ok ps
        | none => Except.error EditErr.propertyNotFound
      | EditSel.nested sname pname => editStructList p.1.names sname (p.2 pname) e.properties
    match res with
    | Except.ok ps => Except.ok (setExportAt p.1 idx ({ e with properties := ps }))
    | Except.error err => Except.error err

/-- The `--edit-export` edit: parse the expression, then apply it. -/
def editExport (g : AssetGraph) (expr : String) : Except EditErr AssetGraph :=
  match parseEdit expr with
  | Except.error e => Except.error e
  | Except.ok (idx, sel, val) => applyEdit g idx sel val

/-- Does the property match the struct-selection test of the 3-segment
form (Struct kind with the given resolved name)? -/
def isStructNamed (names : List String) (t : String) : UProperty → Bool
  | UProperty.structProp n _ _ => resolveName names n == t
  | _ => false

/-- Does the property match the vector-value search (Vector or Rotator
kind with the given resolved name)? -/
def isVec3Named (names : List String) (t : String) : UProperty → Bool
  | UProperty.vectorProp n _ => resolveName names n == t
  | UProperty.rotatorProp n _ => resolveName names n == t
  | _ => false

/-- Target export of the property-edit example: an unrelated Int property,
then the "RelativeLocation" Struct holding an unrelated Float property and
the "RelativeLocation" Vector, then a second unrelated Struct. -/
def egC5e : UExport :=
  { base := egBaseNamed 2,
    actors := none,
    properties :=
      [UProperty.intProp 2,
       UProperty.structProp 0 (some 3)
         [UProperty.floatProp 2,
          UProperty.vectorProp 0 { x := 9, y := 9, z := 9 },
          UProperty.vectorProp 1 { x := 7, y := 7, z := 7 }],
       UProperty.structProp 1 none []] }

/-- Replace an export's property list, keeping the rest of the record. -/
def withProps (e : UExport) (ps : List UProperty) : UExport :=
  { e with properties := ps }

/-- Replace a graph's export list, keeping the name table and imports. -/
def withExports (g : AssetGraph) (es : List UExport) : AssetGraph :=
  { g with exports := es }

/-- Five-export graph whose export at 1-based index 5 is `egC5e`. -/
def egC5 : AssetGraph :=
  { names := ["RelativeLocation", "RelativeRotation", "Unrelated", "Vector"],
    imports := [],
    exports :=
      [{ base := egBaseNamed 2, actors := none, properties := [] },
       { base := egBaseNamed 2, actors := none, properties := [] },
       { base := egBaseNamed 2, actors := none, properties := [] },
       { base := egBaseNamed 2, actors := none, properties := [] },
       egC5e] }

/-- `HashMap::contains_key` on the association-list model of
`HashMap<i32, i32>`. -/
def alContains (m : List (Int × Int)) (k : Int) : Bool :=
  m.any (fun kv => kv.1 == k)

/-- `HashMap::get` on the association-list model. -/
def alGet? (m : List (Int × Int)) (k : Int) : Option Int :=
  (m.find? (fun kv => kv.1 == k)).map (fun kv => kv.2)

/-- `HashMap::insert` on the association-list model: overwrite an existing
key in place, else append; the list length tracks `len()`. -/
def alInsert (m : List (Int × Int)) (k v : Int) : List (Int × Int) :=
  if alContains m k then m.map (fun kv => if kv.1 == k then (k, v) else kv)
  else m ++ [(k, v)]

/-- `HashMap::extend` on the association-list model. -/
def alInsertAll (base : List (Int × Int)) (l : List (Int × Int)) : List (Int × Int) :=
  l.foldl (fun m kv => alInsert m kv.1 kv.2) base

/-- The transplant export closure (main.rs lines 395-414): depth-first
with an explicit stack.  Each pop records the export in traversal order
and inserts its donor index into the visited map with the 1-based position
just assigned; every create-before-serialization dependency that is
export-space (index ≥ 1) and not yet a key of the visited map is pushed.
The Rust stack is a `Vec` popped from the end, so pushing a dependency
list leaves its last element on top — modelled by prepending the reversed
kept dependencies.  A failed `get_export(..).unwrap()` aborts (`none`);
the fuel bound stands in for the loop's unbounded iteration and is also
`none` when exhausted. -/
def exportClosure (donor : AssetGraph) :
    Nat → List Int → List Int → List (Int × Int) →
    Option (List Int × List (Int × Int))
  | 0, _, _, _ => none
  | _ + 1, [], acc, vis => some (acc, vis)
  | fuel + 1, cur :: rest, acc, vis =>
    match getExport donor cur with
    | none => none
    | some e =>
      let acc2 := acc ++ [cur]
      let vis2 := alInsert vis cur (acc2.length : Int)
      let deps := e.base.create_before_serialization_dependencies.filter
        (fun dep => decide (1 ≤ dep) && !(alContains vis2 dep))
      exportClosure donor fuel (deps.reverse ++ rest) acc2 vis2

/-- The transplant import closure over one dependency list (main.rs lines
419-448): each import-space dependency (index < 0) not yet collected is
copied and mapped, and its direct parent import (one level of
`outer_index`) is copied as well when not already collected.  A failed
`get_import(..).unwrap()` — in particular a parent `outer_index` of 0 —
aborts. -/
def collectImportsDeps (donor : AssetGraph) :
    List Int → List UImport → List (Int × Int) →
    Option (List UImport × List (Int × Int))
  | [], accList, accMap => some (accList, accMap)
  | d :: rest, accList, accMap =>
    if 0 ≤ d then collectImportsDeps donor rest accList accMap
    else if alContains accMap d then collectImportsDeps donor rest accList accMap
    else
      match getImport donor d with
      | none => none
      | some imp =>
        if alContains (alInsert accMap d ((accList ++ [imp]).length : Int))
            imp.outer_index then
          collectImportsDeps donor rest (accList ++ [imp])
            (alInsert accMap d ((accList ++ [imp]).length : Int))
        else
          match getImport donor imp.outer_index with
          | none => none
          | some par =>
            collectImportsDeps donor rest ((accList ++ [imp]) ++ [par])
              (alInsert (alInsert accMap d ((accList ++ [imp]).length : Int))
                imp.outer_index (((accList ++ [imp]) ++ [par]).length : Int))

/-- The transplant import closure over every collected export's
create-before-serialization and serialization-before-create dependency
lists, in export order. -/
def collectImports (donor : AssetGraph) :
    List UExport → List UImport → List (Int × Int) →
    Option (List UImport × List (Int × Int))
  | [], accList, accMap => some (accList, accMap)
  | e :: rest, accList, accMap =>
    match collectImportsDeps donor
        (e.base.create_before_serialization_dependencies ++
          e.base.serialization_before_create_dependencies) accList accMap with
    | none => none
    | some lm => collectImports donor rest lm.1 lm.2

/-- Transplant step 3 (main.rs lines 484-492): the combined remap table is
the export map extended with the import map plus the one fixed entry
mapping the donor level-root index to the target level-root index; the
`assert_eq!` demands its size equal the two map sizes plus one and aborts
the run otherwise (`none`). -/
def buildCombined (eMap iMap : List (Int × Int)) (donorPL targetPL : Int) :
    Option (List (Int × Int)) :=
  if (alInsert (alInsertAll (alInsertAll [] eMap) iMap) donorPL targetPL).length
      = eMap.length + iMap.length + 1 then
    some (alInsert (alInsertAll (alInsertAll [] eMap) iMap) donorPL targetPL)
  else none

/-- `*combined_map.get(&i).unwrap_or(&i)`: map an index through the
combined table when present, pass it through unchanged otherwise. -/
def remapIdx (m : List (Int × Int)) (i : Int) : Int :=
  (alGet? m i).getD i

/-- The index-remapping portion of transplant step 4 on an export's base
record (main.rs lines 498-518): `class_index`, `super_index`,
`template_index`, `outer_index` and every entry of the three dependency
lists go through `remapIdx`.  (The `object_name` re-interning on lines
496-497 touches the target name table, not these indices.) -/
def remapBaseIndices (m : List (Int × Int)) (b : BaseExport) : BaseExport :=
  { b with
    class_index := remapIdx m b.class_index,
    super_index := remapIdx m b.super_index,
    template_index := remapIdx m b.template_index,
    outer_index := remapIdx m b.outer_index,
    create_before_serialization_dependencies :=
      b.create_before_serialization_dependencies.map (remapIdx m),
    serialization_before_create_dependencies :=
      b.serialization_before_create_dependencies.map (remapIdx m),
    create_before_create_dependencies :=
      b.create_before_create_dependencies.map (remapIdx m) }

/-- The `for_each_obj_prop` rewriting pass of transplant step 4 (main.rs
lines 585-593 with the traversal of lines 666-678): every Object property
reachable through Struct and Array nesting with a nonzero reference index
is remapped through `combined_map.get(..).unwrap()` — `none` models the
panic when the index is absent from the table; a zero index is left
untouched. -/
def remapObjInProps (m : List (Int × Int)) : List UProperty → Option (List UProperty)
  | [] => some []
  | UProperty.objectProp n v :: rest =>
    if v = 0 then (remapObjInProps m rest).map (fun r => UProperty.objectProp n v :: r)
    else
      match alGet? m v with
      | some w => (remapObjInProps m rest).map (fun r => UProperty.objectProp n w :: r)
      | none => none
  | UProperty.structProp n st val :: rest =>
    match remapObjInProps m val, remapObjInProps m rest with
    | some v2, some r2 => some (UProperty.structProp n st v2 :: r2)
    | _, _ => none
  | UProperty.arrayProp n val :: rest =>
    match remapObjInProps m val, remapObjInProps m rest with
    | some v2, some r2 => some (UProperty.arrayProp n v2 :: r2)
    | _, _ => none
  | p :: rest => (remapObjInProps m rest).map (fun r => p :: r)

/-- Is there an Object property reachable through Struct and Array nesting
whose reference index is nonzero and absent from the table? -/
def hasUnmappedObj (m : List (Int × Int)) : List UProperty → Bool
  | [] => false
  | UProperty.objectProp _ v :: rest =>
    (decide (v ≠ 0) && !(alContains m v)) || hasUnmappedObj m rest
  | UProperty.structProp _ _ val :: rest =>
    hasUnmappedObj m val || hasUnmappedObj m rest
  | UProperty.arrayProp _ val :: rest =>
    hasUnmappedObj m val || hasUnmappedObj m rest
  | _ :: rest => hasUnmappedObj m rest

/-- Donor graph with a dependency diamond: export 1 depends on exports 2
and 3, and export 3 depends on export 2 again. -/
def egDonor : AssetGraph :=
  { names := ["Root", "A", "B"],
    imports := [],
    exports :=
      [{ base := { egBaseNamed 0 with
           create_before_serialization_dependencies := [2, 3] },
         actors := none, properties := [] },
       { base := egBaseNamed 1, actors := none, properties := [] },
       { base := { egBaseNamed 2 with
           create_before_serialization_dependencies := [2] },
         actors := none, properties := [] }] }

/-- Concrete base record for the remap example: `class_index` is in the
table, `super_index` is not. -/
def egBase3 : BaseExport :=
  { object_name := 0, class_index := 2, super_index := 5, template_index := 0,
    outer_index := -1,
    create_before_serialization_dependencies := [2, 7],
    serialization_before_create_dependencies := [-1],
    create_before_create_dependencies := [] }

end Uedit

namespace Uedit

/-- Idempotence of one `disableImport` element step. -/
theorem disableImport_elem_idem (names : List String) (name : String) (im : UImport) :
    (fun im => if resolveName names im.object_name = name then
        { im with outer_index := 0 } else im)
      ((fun im => if resolveName names im.object_name = name then
        { im with outer_index := 0 } else im) im) =
    (fun im => if resolveName names im.object_name = name then
        { im with outer_index := 0 } else im) im := by
  by_cases h : resolveName names im.object_name = name
  · simp [h]
  · simp [h]

/-- C9: `disable_import` is idempotent: applying it twice to any graph with
any import name yields the same graph as applying it once — an import whose
outer index is already 0 keeps outer index 0 and nothing else changes on the
second application. -/
theorem disableImport_idem (g : AssetGraph) (x : String) :
    disableImport (disableImport g x) x = disableImport g x := by
  unfold disableImport
  simp only [List.map_map]
  congr 1
  apply List.map_congr_left
  intro im _
  exact disableImport_elem_idem g.names x im

/-- Interning a string absent from the table finds no existing index. -/
theorem internIdx?_eq_none {names : List String} {s : String}
    (h : ¬ s ∈ names) : internIdx? names s = none := by
  induction names with
  | nil => rfl
  | cons t rest ih =>
    simp only [List.mem_cons, not_or] at h
    have ht : ¬ t = s := fun he => h.1 he.symm
    simp [internIdx?, ht, ih h.2]

/-- `addFName` never changes the import list. -/
theorem addFName_imports (g : AssetGraph) (s : String) :
    (addFName g s).1.imports = g.imports := by
  unfold addFName
  cases h : internIdx? g.names s <;> simp

/-- `addFName` never changes the export list. -/
theorem addFName_exports (g : AssetGraph) (s : String) :
    (addFName g s).1.exports = g.exports := by
  unfold addFName
  cases h : internIdx? g.names s <;> simp

/-- Appending to the name table does not disturb the resolution of any
reference that was already in range. -/
theorem resolveName_append (names : List String) (s : String) (r : Nat)
    (h : r < names.length) : resolveName (names ++ [s]) r = resolveName names r := by
  simp [resolveName, List.getD_eq_getElem?_getD, List.getElem?_append, h]

/-- When no import's object name resolves to `old`, the rename scan leaves
the list unchanged and reports no match. -/
theorem renameFirst_nomatch (names : List String) (old : String) (newRef : Nat)
    (l : List UImport) (h : ∀ im ∈ l, resolveName names im.object_name ≠ old) :
    renameFirst names old newRef l = (l, false) := by
  induction l with
  | nil => rfl
  | cons im rest ih =>
    have h1 : resolveName names im.object_name ≠ old := h im (List.mem_cons_self im rest)
    have h2 : ∀ q ∈ rest, resolveName names q.object_name ≠ old :=
      fun q hq => h q (List.mem_cons_of_mem im hq)
    simp [renameFirst, h1, ih h2]

/-- The rename scan replaces exactly the first matching import and keeps
everything after it untouched. -/
theorem renameFirst_match (names : List String) (old : String) (newRef : Nat)
    (pre post : List UImport) (imp : UImport)
    (hpre : ∀ im ∈ pre, resolveName names im.object_name ≠ old)
    (himp : resolveName names imp.object_name = old) :
    renameFirst names old newRef (pre ++ imp :: post) =
      (pre ++ { imp with object_name := newRef } :: post, true) := by
  induction pre with
  | nil => simp [renameFirst, himp]
  | cons q rest ih =>
    have h1 : resolveName names q.object_name ≠ old := hpre q (List.mem_cons_self q rest)
    have h2 : ∀ im ∈ rest, resolveName names im.object_name ≠ old :=
      fun im hm => hpre im (List.mem_cons_of_mem q hm)
    simp [renameFirst, h1, ih h2]

/-- C7: `rename_import` interns the new name, then replaces the object name
of only the first import (in list order) resolving to the old name, leaving
later imports with the same name unchanged; when no import matches, the
failure is only reported and the remaining requested edits still run. -/
theorem renameImport_spec (g : AssetGraph) (old new : String)
    (pre post : List UImport) (imp : UImport) :
    (g.imports = pre ++ imp :: post →
      (∀ q ∈ pre, resolveName (addFName g new).1.names q.object_name ≠ old) →
      resolveName (addFName g new).1.names imp.object_name = old →
      (renameImport g old new).1.imports =
          pre ++ { imp with object_name := (addFName g new).2 } :: post
        ∧ (renameImport g old new).2 = true)
    ∧ ((∀ q ∈ g.imports, resolveName (addFName g new).1.names q.object_name ≠ old) →
      (renameImport g old new).1.imports = g.imports
        ∧ (renameImport g old new).2 = false)
    ∧ (∀ rest, applyRenames g ((old, new) :: rest) =
        applyRenames (renameImport g old new).1 rest) := by
  refine ⟨?_, ?_, ?_⟩
  · intro hsplit hpre himp
    have him : (addFName g new).1.imports = pre ++ imp :: post := by
      rw [addFName_imports]; exact hsplit
    simp only [renameImport, him]
    rw [renameFirst_match (addFName g new).1.names old (addFName g new).2 pre post imp hpre himp]
    exact ⟨rfl, rfl⟩
  · intro hno
    have him : (addFName g new).1.imports = g.imports := addFName_imports g new
    simp only [renameImport, him]
    rw [renameFirst_nomatch (addFName g new).1.names old (addFName g new).2 g.imports hno]
    exact ⟨rfl, rfl⟩
  · intro rest
    rfl

/-- C7 witness: on a concrete graph with two imports both named "Alpha",
renaming "Alpha" to "Gamma" rewrites only the first import and reports a
match. -/
theorem renameImport_spec_witness :
    (renameImport egRen "Alpha" "Gamma").1.imports =
        [{ egImp0 with object_name := 2 }, egImp1]
      ∧ (renameImport egRen "Alpha" "Gamma").2 = true := by
  have h := (renameImport_spec egRen "Alpha" "Gamma" [] [egImp1] egImp0).1
    (by rfl)
    (by intro q hq; exact absurd hq (List.not_mem_nil q))
    (by rfl)
  simpa using h

/-- C10: `rename_import` is not atomic on failure: the new name is interned
before the import list is searched, so when the new name was not already
present and no import matches the old name the name table has still grown by
the new entry — the graph is not left unchanged by the failed edit. -/
theorem renameImport_not_atomic (g : AssetGraph) (old new : String)
    (hnew : ¬ new ∈ g.names)
    (hwf : ∀ im ∈ g.imports, im.object_name < g.names.length)
    (hnomatch : ∀ im ∈ g.imports, resolveName g.names im.object_name ≠ old) :
    (renameImport g old new).1.names = g.names ++ [new]
    ∧ (renameImport g old new).1.imports = g.imports
    ∧ (renameImport g old new).2 = false
    ∧ (renameImport g old new).1.names ≠ g.names := by
  have hadd : addFName g new = ({ g with names := g.names ++ [new] }, g.names.length) := by
    simp [addFName, internIdx?_eq_none hnew]
  have hno2 : ∀ im ∈ g.imports,
      resolveName (g.names ++ [new]) im.object_name ≠ old := by
    intro im hm
    rw [resolveName_append g.names new im.object_name (hwf im hm)]
    exact hnomatch im hm
  have hrf := renameFirst_nomatch (g.names ++ [new]) old g.names.length g.imports hno2
  refine ⟨?_, ?_, ?_, ?_⟩
  · simp [renameImport, hadd]
  · simp [renameImport, hadd, hrf]
  · simp [renameImport, hadd, hrf]
  · simp only [renameImport, hadd]
    intro he
    have := congrArg List.length he
    simp at this

/-- C10 witness: renaming the absent import name "Nope" to "Gamma" on the
concrete graph grows the name table while leaving the imports untouched. -/
theorem renameImport_not_atomic_witness :
    (renameImport egRen "Nope" "Gamma").1.names = ["Alpha", "Beta", "Gamma"]
      ∧ (renameImport egRen "Nope" "Gamma").1.imports = egRen.imports
      ∧ (renameImport egRen "Nope" "Gamma").1.names ≠ egRen.names := by
  have h := renameImport_not_atomic egRen "Nope" "Gamma"
    (by decide)
    (by decide)
    (by decide)
  exact ⟨h.1, h.2.1, h.2.2.2⟩

/-- C6: disabling the actor with 1-based export index 3 removes the
reference index 3 from the level root's actor list, while the export list
keeps its length and order — every export other than the (modified) level
root is untouched, so export 3 is detached, not deleted. -/
theorem disableActor_by_index_detaches (g : AssetGraph) (pl : Nat) (plExp : UExport)
    (acts : List Int)
    (hlen : 3 ≤ g.exports.length)
    (hpl : findPersistentLevelIdx g = some pl)
    (hplE : g.exports[pl]? = some plExp)
    (hacts : plExp.actors = some acts) :
    ∃ g2, disableActors g [] [3] = Except.ok g2
      ∧ g2.exports.length = g.exports.length
      ∧ (∀ j, j ≠ pl → g2.exports[j]? = g.exports[j]?)
      ∧ g2.exports[pl]? = some ({ plExp with
          actors := some (acts.filter (fun a => !(([(3 : Int)] : List Int).contains a))) })
      ∧ (3 : Int) ∉ acts.filter (fun a => !(([(3 : Int)] : List Int).contains a)) := by
  have hplLt : pl < g.exports.length := by
    rcases List.getElem?_eq_some.mp hplE with ⟨h, _⟩
    exact h
  have hkey : disableActors g [] [3] =
      Except.ok { g with exports := g.exports.set pl ({ plExp with
        actors := some (acts.filter (fun a =>
          !(([(3 : Int)] : List Int).contains a))) }) } := by
    have hc : collectByIndex [3] = Except.ok [2] := rfl
    have hred : disableActors g [] [3] = disableActorsCore g [2] := by
      simp [disableActors, hc, collectByName]
    rw [hred]
    have hall : (([2] : List Nat).all (fun i => decide (i < g.exports.length))) = true := by
      simp only [List.all_cons, List.all_nil, Bool.and_true, decide_eq_true_eq]
      omega
    have hmap : ([2] : List Nat).map (fun i => (i : Int) + 1) = [(3 : Int)] := rfl
    rw [disableActorsCore]
    rw [if_neg (by simp)]
    rw [if_pos hall]
    simp only [hpl, hplE, hacts, hmap]
  refine ⟨_, hkey, ?_, ?_, ?_, ?_⟩
  · simp
  · intro j hj
    simp [List.getElem?_set_ne (fun he => hj he.symm)]
  · simp [List.getElem?_set_eq_of_lt _ hplLt]
  · intro hm
    have := (List.mem_filter.mp hm).2
    simp at this

/-- Concrete witness for the C6 theorem: a three-export graph whose first
export is the level root listing actors 2 and 3; disabling actor index 3
leaves exports 2 and 3 in place and shrinks only the actor list. -/
theorem disableActor_by_index_detaches_witness :
    ∃ g2, disableActors egC6 [] [3] = Except.ok g2
      ∧ g2.exports.length = egC6.exports.length
      ∧ (∀ j, j ≠ 0 → g2.exports[j]? = egC6.exports[j]?)
      ∧ g2.exports[0]? = some ({ egC6lvl with
          actors := some ([(2 : Int), 3].filter (fun a =>
            !(([(3 : Int)] : List Int).contains a))) })
      ∧ (3 : Int) ∉ [(2 : Int), 3].filter (fun a =>
          !(([(3 : Int)] : List Int).contains a)) := by
  exact disableActor_by_index_detaches egC6 0 egC6lvl [2, 3]
    (by decide) (by rfl) (by rfl) (by rfl)

/-- C8 counterexample: on the concrete one-export graph, the actor-disable
name selector "Bogus" matches nothing and the run silently succeeds with
the graph unchanged — no error of any kind is reported, contradicting the
claim that a selector matching nothing is reported as a failure. -/
theorem disableActors_silent_skip_counterexample :
    disableActors egG8 ["Bogus"] [] = Except.ok egG8
      ∧ ¬ (∃ e, disableActors egG8 ["Bogus"] [] = Except.error e) := by
  constructor
  · rfl
  · rintro ⟨e, he⟩
    rw [show disableActors egG8 ["Bogus"] [] = Except.ok egG8 from rfl] at he
    cases he

/-- C8 amended: a numeric actor-disable selector that is out of range
aborts the run (0 underflows the 1-based conversion; an index larger than
the export count fails the export lookup), but a name selector that
matches no export contributes no indices and is silently ignored — when no
selector resolves, the disable step returns the graph unchanged with no
error. -/
theorem disableActors_out_of_range (g : AssetGraph) (s : String) (n : Nat) :
    ((∀ i, i < g.exports.length → exportNameAt g i ≠ s) →
      disableActors g [s] [] = Except.ok g)
    ∧ (n = 0 → disableActors g [] [n] = Except.error EditErr.indexUnderflow)
    ∧ (0 < n → g.exports.length < n →
        disableActors g [] [n] = Except.error EditErr.exportNotFound) := by
  refine ⟨?_, ?_, ?_⟩
  · intro hnone
    have hfil : (List.range g.exports.length).filter (fun i => exportNameAt g i == s) = [] := by
      apply List.filter_eq_nil_iff.mpr
      intro i hi
      have := hnone i (List.mem_range.mp hi)
      simp [this]
    simp [disableActors, collectByIndex, collectByName, hfil, disableActorsCore]
  · intro h0
    subst h0
    rfl
  · intro hpos hlen
    have hn0 : ¬ n = 0 := by omega
    have hc : collectByIndex [n] = Except.ok [n - 1] := by
      simp [collectByIndex, hn0, Except.map]
    have hred : disableActors g [] [n] = disableActorsCore g [n - 1] := by
      simp [disableActors, hc, collectByName]
    rw [hred]
    have hall : (([n - 1] : List Nat).all
        (fun i => decide (i < g.exports.length))) = false := by
      simp only [List.all_cons, List.all_nil, Bool.and_true, decide_eq_false_iff_not]
      omega
    rw [disableActorsCore]
    rw [if_neg (by simp)]
    rw [if_neg (by simp [hall])]

/-- C8 amended witness: on the concrete one-export graph, numeric selector
5 aborts with an export-lookup failure while the unmatched name selector
"Bogus" is silently ignored. -/
theorem disableActors_out_of_range_witness :
    disableActors egG8 [] [5] = Except.error EditErr.exportNotFound
      ∧ disableActors egG8 ["Bogus"] [] = Except.ok egG8 := by
  have h := disableActors_out_of_range egG8 "Bogus" 5
  refine ⟨h.2.2 (by decide) (by decide), h.1 ?_⟩
  intro i hi
  rw [show egG8.exports.length = 1 from rfl] at hi
  have hi0 : i = 0 := by omega
  subst hi0
  decide

/-- A property failing the vector-search test is skipped: the search
continues on the tail and reattaches the head. -/
theorem applyVec3_cons_skip (names : List String) (pname : String) (v : Vec3q)
    (p : UProperty) (rest : List UProperty)
    (hp : isVec3Named names pname p = false) :
    applyVec3 names pname v (p :: rest) =
      (applyVec3 names pname v rest).map (fun r => p :: r) := by
  cases p <;> simp_all [applyVec3, isVec3Named]

/-- A prefix of properties all failing the vector-search test is skipped
wholesale. -/
theorem applyVec3_append (names : List String) (pname : String) (v : Vec3q)
    (pre rest : List UProperty)
    (h : ∀ p ∈ pre, isVec3Named names pname p = false) :
    applyVec3 names pname v (pre ++ rest) =
      (applyVec3 names pname v rest).map (fun r => pre ++ r) := by
  induction pre with
  | nil =>
    rw [List.nil_append]
    cases hx : applyVec3 names pname v rest <;> simp [hx]
  | cons p ps ih =>
    rw [List.cons_append,
      applyVec3_cons_skip names pname v p (ps ++ rest) (h p (List.mem_cons_self p ps))]
    rw [ih (fun q hq => h q (List.mem_cons_of_mem p hq))]
    cases hx : applyVec3 names pname v rest <;> simp [hx]

/-- The vector search hits a Vector property with a matching name and
replaces exactly its three components. -/
theorem applyVec3_vector_match (names : List String) (pname : String) (v : Vec3q)
    (n : Nat) (w : Vec3q) (rest : List UProperty)
    (hn : resolveName names n = pname) :
    applyVec3 names pname v (UProperty.vectorProp n w :: rest) =
      some (UProperty.vectorProp n v :: rest) := by
  simp [applyVec3, hn]

/-- A property failing the struct-selection test is skipped: the search
continues on the tail and reattaches the head. -/
theorem editStructList_cons_skip (names : List String) (sname : String)
    (inner : List UProperty → Option (List UProperty))
    (p : UProperty) (rest : List UProperty)
    (hp : isStructNamed names sname p = false) :
    editStructList names sname inner (p :: rest) =
      (editStructList names sname inner rest).map (fun r => p :: r) := by
  cases p <;> simp_all [editStructList, isStructNamed]

/-- A prefix of properties all failing the struct-selection test is
skipped wholesale. -/
theorem editStructList_append (names : List String) (sname : String)
    (inner : List UProperty → Option (List UProperty))
    (pre rest : List UProperty)
    (h : ∀ p ∈ pre, isStructNamed names sname p = false) :
    editStructList names sname inner (pre ++ rest) =
      (editStructList names sname inner rest).map (fun r => pre ++ r) := by
  induction pre with
  | nil =>
    rw [List.nil_append]
    cases hx : editStructList names sname inner rest <;> simp [hx, Except.map]
  | cons p ps ih =>
    rw [List.cons_append,
      editStructList_cons_skip names sname inner p (ps ++ rest) (h p (List.mem_cons_self p ps))]
    rw [ih (fun q hq => h q (List.mem_cons_of_mem p hq))]
    cases hx : editStructList names sname inner rest <;> simp [hx, Except.map]

/-- The struct selection hits a Struct property with a matching name and
rewrites it with the inner search's result. -/
theorem editStructList_struct_match (names : List String) (sname : String)
    (inner : List UProperty → Option (List UProperty))
    (n : Nat) (st : Option Nat) (val val2 rest : List UProperty)
    (hn : resolveName names n = sname) (hinner : inner val = some val2) :
    editStructList names sname inner (UProperty.structProp n st val :: rest) =
      Except.ok (UProperty.structProp n st val2 :: rest) := by
  simp [editStructList, hn, hinner]

/-- C5: applying the edit expression "5.RelativeLocation.RelativeLocation=1,2,3"
to a graph whose export at 1-based index 5 carries a Struct property named
RelativeLocation (first such Struct) containing a Vector property named
RelativeLocation (first vector-compatible match inside the struct) sets
that Vector's components to (1, 2, 3) and leaves every other property of
export 5 and every other export unchanged. -/
theorem editExport_vec3_example (g : AssetGraph) (e : UExport)
    (ppre ppost spre spost : List UProperty) (sn : Nat) (st : Option Nat)
    (vn : Nat) (w : Vec3q)
    (he : g.exports[4]? = some e)
    (hprops : e.properties =
      ppre ++ UProperty.structProp sn st
        (spre ++ UProperty.vectorProp vn w :: spost) :: ppost)
    (hppre : ∀ p ∈ ppre, isStructNamed g.names "RelativeLocation" p = false)
    (hsn : resolveName g.names sn = "RelativeLocation")
    (hspre : ∀ p ∈ spre, isVec3Named g.names "RelativeLocation" p = false)
    (hvn : resolveName g.names vn = "RelativeLocation") :
    editExport g "5.RelativeLocation.RelativeLocation=1,2,3" =
      Except.ok (withExports g (g.exports.set 4 (withProps e
        (ppre ++ UProperty.structProp sn st
          (spre ++ UProperty.vectorProp vn (Vec3q.mk 1 2 3) :: spost)
          :: ppost)))) := by
  have hred : editExport g "5.RelativeLocation.RelativeLocation=1,2,3" =
      applyEdit g 5 (EditSel.nested "RelativeLocation" "RelativeLocation")
        (EditVal.vecVal (Vec3q.mk 1 2 3)) := rfl
  rw [hred]
  have hget : getExport g 5 = some e := by
    unfold getExport
    rw [if_pos (by norm_num)]
    exact he
  have hinner : applyVec3 g.names "RelativeLocation" (Vec3q.mk 1 2 3)
      (spre ++ UProperty.vectorProp vn w :: spost) =
      some (spre ++ UProperty.vectorProp vn (Vec3q.mk 1 2 3) :: spost) := by
    rw [applyVec3_append g.names "RelativeLocation" _ spre _ hspre]
    rw [applyVec3_vector_match g.names "RelativeLocation" _ vn w spost hvn]
    rfl
  have hsearch : editStructList g.names "RelativeLocation"
      (applyVec3 g.names "RelativeLocation" (Vec3q.mk 1 2 3))
      e.properties =
      Except.ok (ppre ++ UProperty.structProp sn st
        (spre ++ UProperty.vectorProp vn (Vec3q.mk 1 2 3) :: spost)
        :: ppost) := by
    rw [hprops]
    rw [editStructList_append g.names "RelativeLocation" _ ppre _ hppre]
    rw [editStructList_struct_match g.names "RelativeLocation" _ sn st _ _ ppost hsn hinner]
    rfl
  simp only [applyEdit, hget, hsearch]
  rfl

/-- C5 witness: the concrete five-export graph `egC5` after the example
edit has only the first RelativeLocation vector inside the first
RelativeLocation struct of export 5 replaced by (1, 2, 3). -/
theorem editExport_vec3_example_witness :
    editExport egC5 "5.RelativeLocation.RelativeLocation=1,2,3" =
      Except.ok (withExports egC5 (egC5.exports.set 4 (withProps egC5e
        ([UProperty.intProp 2] ++ UProperty.structProp 0 (some 3)
          ([UProperty.floatProp 2] ++
            UProperty.vectorProp 0 (Vec3q.mk 1 2 3) ::
              [UProperty.vectorProp 1 (Vec3q.mk 7 7 7)])
          :: [UProperty.structProp 1 none []])))) := by
  exact editExport_vec3_example egC5 egC5e
    [UProperty.intProp 2] [UProperty.structProp 1 none []]
    [UProperty.floatProp 2] [UProperty.vectorProp 1 (Vec3q.mk 7 7 7)]
    0 (some 3) 0 (Vec3q.mk 9 9 9)
    (by rfl) (by rfl) (by decide) (by rfl) (by decide) (by rfl)

/-- Membership form of the map's `contains_key`. -/
theorem alContains_iff (m : List (Int × Int)) (j : Int) :
    alContains m j = true ↔ ∃ kv ∈ m, kv.1 = j := by
  unfold alContains
  rw [List.any_eq_true]
  constructor
  · rintro ⟨kv, hm, hb⟩
    exact ⟨kv, hm, by simpa using hb⟩
  · rintro ⟨kv, hm, hb⟩
    exact ⟨kv, hm, by simpa using hb⟩

/-- Negated membership form of the map's `contains_key`. -/
theorem alContains_false_iff (m : List (Int × Int)) (j : Int) :
    alContains m j = false ↔ ∀ kv ∈ m, kv.1 ≠ j := by
  rw [← Bool.not_eq_true, alContains_iff]
  push_neg
  rfl

/-- A key the map does not contain has no binding. -/
theorem alGet?_eq_none_of_not_contains {m : List (Int × Int)} {k : Int}
    (h : alContains m k = false) : alGet? m k = none := by
  have hf : m.find? (fun kv => kv.1 == k) = none := by
    rw [List.find?_eq_none]
    intro x hx hbeq
    have ht : alContains m k = true := by
      unfold alContains
      rw [List.any_eq_true]
      exact ⟨x, hx, hbeq⟩
    rw [ht] at h
    cases h
  simp [alGet?, hf]

/-- `insert` adds exactly the inserted key to the key set. -/
theorem alContains_alInsert (m : List (Int × Int)) (k v j : Int) :
    alContains (alInsert m k v) j = true ↔ j = k ∨ alContains m j = true := by
  unfold alInsert
  by_cases h : alContains m k
  · rw [if_pos h, alContains_iff, alContains_iff]
    constructor
    · rintro ⟨kv, hkv, hj⟩
      rw [List.mem_map] at hkv
      obtain ⟨kv0, hkv0, rfl⟩ := hkv
      by_cases hk : (kv0.1 == k) = true
      · rw [if_pos hk] at hj
        exact Or.inl hj.symm
      · rw [if_neg hk] at hj
        exact Or.inr ⟨kv0, hkv0, hj⟩
    · intro hx
      rcases hx with rfl | ⟨kv, hkv, hj⟩
      · obtain ⟨kv0, hkv0, hk0⟩ := (alContains_iff m j).mp h
        refine ⟨(j, v), List.mem_map.mpr ⟨kv0, hkv0, ?_⟩, rfl⟩
        rw [if_pos (by simpa using hk0)]
      · by_cases hk : (kv.1 == k) = true
        · refine ⟨(k, v), List.mem_map.mpr ⟨kv, hkv, by rw [if_pos hk]⟩, ?_⟩
          have hk2 : kv.1 = k := by simpa using hk
          rw [← hj, hk2]
        · exact ⟨kv, List.mem_map.mpr ⟨kv, hkv, by rw [if_neg hk]⟩, hj⟩
  · rw [if_neg h, alContains_iff, alContains_iff]
    constructor
    · rintro ⟨kv, hkv, hj⟩
      rw [List.mem_append] at hkv
      rcases hkv with hkv | hkv
      · exact Or.inr ⟨kv, hkv, hj⟩
      · left
        have : kv = (k, v) := by simpa using hkv
        rw [← hj, this]
    · intro hx
      rcases hx with rfl | ⟨kv, hkv, hj⟩
      · exact ⟨(j, v), List.mem_append.mpr (Or.inr (by simp)), rfl⟩
      · exact ⟨kv, List.mem_append.mpr (Or.inl hkv), hj⟩

/-- `insert` grows the map's size exactly when the key is new. -/
theorem alInsert_length (m : List (Int × Int)) (k v : Int) :
    (alInsert m k v).length =
      if alContains m k then m.length else m.length + 1 := by
  unfold alInsert
  by_cases h : alContains m k
  · rw [if_pos h, if_pos h, List.length_map]
  · rw [if_neg h, if_neg h, List.length_append]
    rfl

/-- Extending a map with bindings whose keys are fresh and mutually
distinct appends them verbatim. -/
theorem alInsertAll_fresh (l : List (Int × Int)) :
    ∀ base, (∀ kv ∈ l, alContains base kv.1 = false) →
    (l.map Prod.fst).Nodup → alInsertAll base l = base ++ l := by
  induction l with
  | nil =>
    intro base _ _
    simp [alInsertAll]
  | cons kv tl ih =>
    intro base hdis hnodup
    have h1 : alContains base kv.1 = false := hdis kv (List.mem_cons_self kv tl)
    have hstep : alInsertAll base (kv :: tl) = alInsertAll (base ++ [kv]) tl := by
      simp [alInsertAll, alInsert, h1]
    have hkn : kv.1 ∉ tl.map Prod.fst := by
      rw [List.map_cons, List.nodup_cons] at hnodup
      exact hnodup.1
    have hnod2 : (tl.map Prod.fst).Nodup := by
      rw [List.map_cons, List.nodup_cons] at hnodup
      exact hnodup.2
    have hdis2 : ∀ q ∈ tl, alContains (base ++ [kv]) q.1 = false := by
      intro q hq
      rw [alContains_false_iff]
      intro kv2 hkv2 he2
      rw [List.mem_append] at hkv2
      rcases hkv2 with hkv2 | hkv2
      · exact ((alContains_false_iff base q.1).mp
          (hdis q (List.mem_cons_of_mem kv hq))) kv2 hkv2 he2
      · have hk2 : kv2 = kv := by simpa using hkv2
        apply hkn
        rw [← hk2, he2]
        exact List.mem_map_of_mem Prod.fst hq
    rw [hstep, ih (base ++ [kv]) hdis2 hnod2]
    simp

/-- The visited map's key set always matches the recorded traversal
list: each pop inserts the export it records. -/
theorem exportClosure_keys_inv (d : AssetGraph) :
    ∀ (fuel : Nat) (stack acc : List Int) (vis : List (Int × Int))
      (order : List Int) (vis2 : List (Int × Int)),
    (∀ k, alContains vis k = true ↔ k ∈ acc) →
    exportClosure d fuel stack acc vis = some (order, vis2) →
    ∀ k, alContains vis2 k = true ↔ k ∈ order := by
  intro fuel
  induction fuel with
  | zero =>
    intro stack acc vis order vis2 hinv hrun
    cases hrun
  | succ fuel ih =>
    intro stack acc vis order vis2 hinv hrun
    cases stack with
    | nil =>
      rw [exportClosure] at hrun
      injection hrun with hp
      injection hp with h1 h2
      subst h1
      subst h2
      exact hinv
    | cons cur rest =>
      rw [exportClosure] at hrun
      cases hg : getExport d cur with
      | none =>
        rw [hg] at hrun
        cases hrun
      | some e =>
        rw [hg] at hrun
        refine ih _ _ _ _ _ ?_ hrun
        intro k
        rw [alContains_alInsert, hinv k, List.mem_append]
        simp
        tauto

/-- C1 amended: for every donor graph, fuel bound and root, a completed
export-closure traversal yields a visited map whose key set is exactly the
set of recorded donor indices — an index already visited is never pushed
again — but the traversal-order list itself may record an index more than
once (see the counterexample), so "at most once" does not hold of the
list. -/
theorem exportClosure_visited_set (d : AssetGraph) (fuel : Nat) (root : Int)
    (order : List Int) (vis : List (Int × Int))
    (hrun : exportClosure d fuel [root] [] [] = some (order, vis)) :
    ∀ k, alContains vis k = true ↔ k ∈ order := by
  refine exportClosure_keys_inv d fuel [root] [] [] order vis ?_ hrun
  intro k
  simp [alContains]

/-- C1 witness: the diamond donor's traversal records `[1, 3, 2, 2]` and
its visited map contains exactly the keys 1, 3, 2. -/
theorem exportClosure_visited_set_witness :
    alContains [((1 : Int), (1 : Int)), ((3 : Int), (2 : Int)), ((2 : Int), (4 : Int))] 2 = true
      ∧ (2 : Int) ∈ [(1 : Int), 3, 2, 2] := by
  have h := exportClosure_visited_set egDonor 8 1 [1, 3, 2, 2]
    [(1, 1), (3, 2), (2, 4)] (by rfl)
  exact ⟨(h 2).mpr (by simp), by simp⟩

/-- C1 counterexample: on the diamond donor (export 1 depends on 2 and 3,
export 3 depends on 2 again), the export closure from root 1 records donor
export 2 twice — the collected traversal list is not duplicate-free, because
the visited-map check runs only when a dependency is pushed, and export 2
is pushed twice before its first visit. -/
theorem exportClosure_duplicate_counterexample :
    (exportClosure egDonor 8 [1] [] []).map Prod.fst = some [1, 3, 2, 2]
      ∧ ¬ (∀ (order : List Int) (vis : List (Int × Int)),
            exportClosure egDonor 8 [1] [] [] = some (order, vis) →
              order.Nodup) := by
  constructor
  · rfl
  · intro hall
    have h := hall [1, 3, 2, 2] [(1, 1), (3, 2), (2, 4)] (by rfl)
    exact absurd h (by decide)

/-- A successful `get_export` means the reference index was positive. -/
theorem getExport_pos {g : AssetGraph} {i : Int} {e : UExport}
    (h : getExport g i = some e) : 1 ≤ i := by
  unfold getExport at h
  by_cases hi : 1 ≤ i
  · exact hi
  · rw [if_neg hi] at h
    cases h

/-- A successful `get_import` means the reference index was negative. -/
theorem getImport_neg {g : AssetGraph} {i : Int} {imp : UImport}
    (h : getImport g i = some imp) : i ≤ -1 := by
  unfold getImport at h
  by_cases hi : i ≤ -1
  · exact hi
  · rw [if_neg hi] at h
    cases h

/-- Every entry of an inserted map is the new binding or an old entry. -/
theorem mem_alInsert (m : List (Int × Int)) (k v : Int) (kv : Int × Int)
    (h : kv ∈ alInsert m k v) : kv.1 = k ∨ kv ∈ m := by
  unfold alInsert at h
  by_cases hc : alContains m k
  · rw [if_pos hc] at h
    rw [List.mem_map] at h
    obtain ⟨kv0, h0, hf⟩ := h
    by_cases hk : (kv0.1 == k) = true
    · rw [if_pos hk] at hf
      left
      rw [← hf]
    · rw [if_neg hk] at hf
      right
      rw [← hf]
      exact h0
  · rw [if_neg hc, List.mem_append] at h
    rcases h with h | h
    · exact Or.inr h
    · left
      have hk : kv = (k, v) := by simpa using h
      rw [hk]

/-- `insert` keeps the map's keys duplicate-free. -/
theorem alInsert_keys_nodup (m : List (Int × Int)) (k v : Int)
    (h : (m.map Prod.fst).Nodup) : ((alInsert m k v).map Prod.fst).Nodup := by
  unfold alInsert
  by_cases hc : alContains m k
  · rw [if_pos hc]
    have hkeys : (m.map (fun kv => if kv.1 == k then (k, v) else kv)).map Prod.fst =
        m.map Prod.fst := by
      rw [List.map_map]
      apply List.map_congr_left
      intro kv _
      by_cases hk : (kv.1 == k) = true
      · have hk2 : kv.1 = k := by simpa using hk
        simp [hk, hk2]
      · have hk2 : ¬ kv.1 = k := by simpa using hk
        simp [hk, hk2]
    rw [hkeys]
    exact h
  · rw [if_neg hc, List.map_append]
    rw [List.nodup_append]
    refine ⟨h, by simp, ?_⟩
    intro x hx hxk
    have hxk2 : x = k := by simpa using hxk
    rw [List.mem_map] at hx
    obtain ⟨kv, hkv, hfst⟩ := hx
    exact ((alContains_false_iff m k).mp (Bool.eq_false_iff.mpr hc)) kv hkv
      (by rw [hfst, hxk2])

/-- Every completed export-closure run keeps the visited map's keys
export-space (positive) and duplicate-free: the export map handed to
transplant step 3 satisfies the hypotheses of the size theorem. -/
theorem exportClosure_keys_sound (d : AssetGraph) :
    ∀ (fuel : Nat) (stack acc : List Int) (vis : List (Int × Int))
      (order : List Int) (vis2 : List (Int × Int)),
    (∀ kv ∈ vis, 1 ≤ kv.1) → (vis.map Prod.fst).Nodup →
    exportClosure d fuel stack acc vis = some (order, vis2) →
    (∀ kv ∈ vis2, 1 ≤ kv.1) ∧ (vis2.map Prod.fst).Nodup := by
  intro fuel
  induction fuel with
  | zero =>
    intro stack acc vis order vis2 _ _ hrun
    cases hrun
  | succ fuel ih =>
    intro stack acc vis order vis2 hpos hnd hrun
    cases stack with
    | nil =>
      rw [exportClosure] at hrun
      injection hrun with hp
      injection hp with h1 h2
      subst h2
      exact ⟨hpos, hnd⟩
    | cons cur rest =>
      rw [exportClosure] at hrun
      cases hg : getExport d cur with
      | none =>
        rw [hg] at hrun
        cases hrun
      | some e =>
        rw [hg] at hrun
        refine ih _ _ _ _ _ ?_ ?_ hrun
        · intro kv hkv
          rcases mem_alInsert _ _ _ _ hkv with hk | hk
          · rw [hk]
            exact getExport_pos hg
          · exact hpos kv hk
        · exact alInsert_keys_nodup _ _ _ hnd

/-- Every completed import-closure pass over one dependency list keeps
the import map's keys import-space (negative) and duplicate-free. -/
theorem collectImportsDeps_keys_sound (donor : AssetGraph) :
    ∀ (deps : List Int) (accList : List UImport) (accMap : List (Int × Int))
      (outList : List UImport) (outMap : List (Int × Int)),
    (∀ kv ∈ accMap, kv.1 ≤ -1) → (accMap.map Prod.fst).Nodup →
    collectImportsDeps donor deps accList accMap = some (outList, outMap) →
    (∀ kv ∈ outMap, kv.1 ≤ -1) ∧ (outMap.map Prod.fst).Nodup := by
  intro deps
  induction deps with
  | nil =>
    intro accList accMap outList outMap hneg hnd hrun
    rw [collectImportsDeps] at hrun
    injection hrun with hp
    injection hp with h1 h2
    subst h2
    exact ⟨hneg, hnd⟩
  | cons d rest ih =>
    intro accList accMap outList outMap hneg hnd hrun
    rw [collectImportsDeps] at hrun
    by_cases h0 : 0 ≤ d
    · rw [if_pos h0] at hrun
      exact ih _ _ _ _ hneg hnd hrun
    · rw [if_neg h0] at hrun
      by_cases hc : alContains accMap d = true
      · rw [if_pos hc] at hrun
        exact ih _ _ _ _ hneg hnd hrun
      · rw [if_neg hc] at hrun
        cases hgi : getImport donor d with
        | none =>
          rw [hgi] at hrun
          cases hrun
        | some imp =>
          simp only [hgi] at hrun
          have hneg2 : ∀ kv ∈ alInsert accMap d ((accList ++ [imp]).length : Int),
              kv.1 ≤ -1 := by
            intro kv hkv
            rcases mem_alInsert _ _ _ _ hkv with hk | hk
            · rw [hk]
              omega
            · exact hneg kv hk
          have hnd2 := alInsert_keys_nodup accMap d ((accList ++ [imp]).length : Int) hnd
          by_cases hco : alContains (alInsert accMap d ((accList ++ [imp]).length : Int))
              imp.outer_index = true
          · rw [if_pos hco] at hrun
            exact ih _ _ _ _ hneg2 hnd2 hrun
          · rw [if_neg hco] at hrun
            cases hgp : getImport donor imp.outer_index with
            | none =>
              rw [hgp] at hrun
              cases hrun
            | some par =>
              rw [hgp] at hrun
              refine ih _ _ _ _ ?_ ?_ hrun
              · intro kv hkv
                rcases mem_alInsert _ _ _ _ hkv with hk | hk
                · rw [hk]
                  exact getImport_neg hgp
                · exact hneg2 kv hk
              · exact alInsert_keys_nodup _ _ _ hnd2

/-- Every completed import closure over a list of exports keeps the import
map's keys import-space (negative) and duplicate-free: the import map
handed to transplant step 3 satisfies the hypotheses of the size
theorem. -/
theorem collectImports_keys_sound (donor : AssetGraph) :
    ∀ (exps : List UExport) (accList : List UImport) (accMap : List (Int × Int))
      (outList : List UImport) (outMap : List (Int × Int)),
    (∀ kv ∈ accMap, kv.1 ≤ -1) → (accMap.map Prod.fst).Nodup →
    collectImports donor exps accList accMap = some (outList, outMap) →
    (∀ kv ∈ outMap, kv.1 ≤ -1) ∧ (outMap.map Prod.fst).Nodup := by
  intro exps
  induction exps with
  | nil =>
    intro accList accMap outList outMap hneg hnd hrun
    rw [collectImports] at hrun
    injection hrun with hp
    injection hp with h1 h2
    subst h2
    exact ⟨hneg, hnd⟩
  | cons e rest ih =>
    intro accList accMap outList outMap hneg hnd hrun
    rw [collectImports] at hrun
    cases hstep : collectImportsDeps donor
        (e.base.create_before_serialization_dependencies ++
          e.base.serialization_before_create_dependencies) accList accMap with
    | none =>
      rw [hstep] at hrun
      cases hrun
    | some lm =>
      rw [hstep] at hrun
      have h1 := collectImportsDeps_keys_sound donor _ _ _ _ _ hneg hnd hstep
      exact ih _ _ _ _ h1.1 h1.2 hrun

/-- C2: when the export-map keys are distinct and export-space (positive)
and the import-map keys are distinct and import-space (negative), the
combined remap table passes the size assertion exactly when the donor
level-root index collides with no collected key; on success its size is
the two map sizes plus one, and on a size mismatch the run aborts
(`none`) instead of producing output. -/
theorem buildCombined_size (eMap iMap : List (Int × Int)) (dpl tpl : Int)
    (he : (eMap.map Prod.fst).Nodup) (hi : (iMap.map Prod.fst).Nodup)
    (hep : ∀ kv ∈ eMap, 1 ≤ kv.1) (hin : ∀ kv ∈ iMap, kv.1 ≤ -1) :
    (∀ res, buildCombined eMap iMap dpl tpl = some res →
        res.length = eMap.length + iMap.length + 1)
      ∧ (buildCombined eMap iMap dpl tpl = none ↔
          alContains (eMap ++ iMap) dpl = true) := by
  have h0 : alInsertAll [] eMap = eMap := by
    have h := alInsertAll_fresh eMap [] (fun kv _ => rfl) he
    simpa using h
  have hdis : ∀ kv ∈ iMap, alContains eMap kv.1 = false := by
    intro kv hkv
    rw [alContains_false_iff]
    intro kv2 hkv2 he2
    have h1 := hep kv2 hkv2
    have h2 := hin kv hkv
    omega
  have h1 : alInsertAll eMap iMap = eMap ++ iMap :=
    alInsertAll_fresh iMap eMap hdis hi
  have hlen : (alInsert (eMap ++ iMap) dpl tpl).length =
      if alContains (eMap ++ iMap) dpl then (eMap ++ iMap).length
      else (eMap ++ iMap).length + 1 := alInsert_length _ _ _
  constructor
  · intro res hres
    unfold buildCombined at hres
    rw [h0, h1] at hres
    by_cases hc : (alInsert (eMap ++ iMap) dpl tpl).length =
        eMap.length + iMap.length + 1
    · rw [if_pos hc] at hres
      injection hres with hres
      rw [← hres]
      exact hc
    · rw [if_neg hc] at hres
      cases hres
  · unfold buildCombined
    rw [h0, h1]
    by_cases hc : alContains (eMap ++ iMap) dpl = true
    · have hl2 : (alInsert (eMap ++ iMap) dpl tpl).length =
          eMap.length + iMap.length := by
        rw [hlen, if_pos hc, List.length_append]
      rw [if_neg (by omega)]
      simp [hc]
    · have hc2 : alContains (eMap ++ iMap) dpl = false :=
        Bool.not_eq_true _ ▸ Bool.eq_false_iff.mpr hc
      have hl2 : (alInsert (eMap ++ iMap) dpl tpl).length =
          eMap.length + iMap.length + 1 := by
        rw [hlen, if_neg (by rw [hc2]; exact Bool.false_ne_true), List.length_append]
      rw [if_pos hl2]
      constructor
      · intro hx
        cases hx
      · intro hx
        rw [hx] at hc
        exact absurd rfl hc

/-- C2 witness: one positive export entry, one negative import entry and a
level-root key absent from both build a combined table of size three. -/
theorem buildCombined_size_witness :
    buildCombined [((1 : Int), (10 : Int))] [((-1 : Int), (-3 : Int))] 7 2 =
        some [((1 : Int), (10 : Int)), ((-1 : Int), (-3 : Int)), ((7 : Int), (2 : Int))]
      ∧ ([((1 : Int), (10 : Int)), ((-1 : Int), (-3 : Int)),
          ((7 : Int), (2 : Int))] : List (Int × Int)).length = 1 + 1 + 1 := by
  have h := buildCombined_size [((1 : Int), (10 : Int))] [((-1 : Int), (-3 : Int))] 7 2
    (by decide) (by decide) (by decide) (by decide)
  exact ⟨by rfl, h.1 _ (by rfl)⟩

/-- C3: rewriting a transplanted export's base record maps `class_index`,
`super_index`, `template_index`, `outer_index` and every entry of the
three dependency lists through the combined table when the index is
present, and passes any index absent from the table through unchanged. -/
theorem remapBaseIndices_spec (m : List (Int × Int)) (b : BaseExport) :
    (∀ v, alGet? m b.class_index = some v → (remapBaseIndices m b).class_index = v)
    ∧ (alGet? m b.class_index = none →
        (remapBaseIndices m b).class_index = b.class_index)
    ∧ (∀ v, alGet? m b.super_index = some v → (remapBaseIndices m b).super_index = v)
    ∧ (alGet? m b.super_index = none →
        (remapBaseIndices m b).super_index = b.super_index)
    ∧ (∀ v, alGet? m b.template_index = some v →
        (remapBaseIndices m b).template_index = v)
    ∧ (alGet? m b.template_index = none →
        (remapBaseIndices m b).template_index = b.template_index)
    ∧ (∀ v, alGet? m b.outer_index = some v → (remapBaseIndices m b).outer_index = v)
    ∧ (alGet? m b.outer_index = none →
        (remapBaseIndices m b).outer_index = b.outer_index)
    ∧ ((remapBaseIndices m b).create_before_serialization_dependencies =
        b.create_before_serialization_dependencies.map (remapIdx m))
    ∧ ((remapBaseIndices m b).serialization_before_create_dependencies =
        b.serialization_before_create_dependencies.map (remapIdx m))
    ∧ ((remapBaseIndices m b).create_before_create_dependencies =
        b.create_before_create_dependencies.map (remapIdx m))
    ∧ (∀ i v, alGet? m i = some v → remapIdx m i = v)
    ∧ (∀ i, alGet? m i = none → remapIdx m i = i) := by
  refine ⟨?_, ?_, ?_, ?_, ?_, ?_, ?_, ?_, rfl, rfl, rfl, ?_, ?_⟩
  · intro v h
    simp [remapBaseIndices, remapIdx, h]
  · intro h
    simp [remapBaseIndices, remapIdx, h]
  · intro v h
    simp [remapBaseIndices, remapIdx, h]
  · intro h
    simp [remapBaseIndices, remapIdx, h]
  · intro v h
    simp [remapBaseIndices, remapIdx, h]
  · intro h
    simp [remapBaseIndices, remapIdx, h]
  · intro v h
    simp [remapBaseIndices, remapIdx, h]
  · intro h
    simp [remapBaseIndices, remapIdx, h]
  · intro i v h
    simp [remapIdx, h]
  · intro i h
    simp [remapIdx, h]

/-- C3 witness: with table `{2 ↦ 9, -1 ↦ -4}` the concrete base record's
`class_index` 2 is mapped to 9 while its `super_index` 5, absent from the
table, passes through unchanged. -/
theorem remapBaseIndices_spec_witness :
    (remapBaseIndices [((2 : Int), (9 : Int)), ((-1 : Int), (-4 : Int))] egBase3).class_index = 9
      ∧ (remapBaseIndices [((2 : Int), (9 : Int)), ((-1 : Int), (-4 : Int))] egBase3).super_index = 5 := by
  have h := remapBaseIndices_spec [((2 : Int), (9 : Int)), ((-1 : Int), (-4 : Int))] egBase3
  exact ⟨h.1 9 (by rfl), h.2.2.2.1 (by rfl)⟩

/-- An Object property with a nonzero index absent from the table makes
the rewriting pass abort, at any nesting depth. -/
theorem hasUnmapped_remap_none (m : List (Int × Int)) :
    ∀ props, hasUnmappedObj m props = true → remapObjInProps m props = none := by
  intro props
  induction props using hasUnmappedObj.induct m with
  | case1 =>
    intro h
    simp [hasUnmappedObj] at h
  | case2 n v rest ih =>
    intro h
    rw [hasUnmappedObj] at h
    rcases Bool.or_eq_true_iff.mp h with h1 | h2
    · simp only [Bool.and_eq_true, decide_eq_true_eq, Bool.not_eq_true'] at h1
      obtain ⟨hv, hc⟩ := h1
      rw [remapObjInProps, if_neg hv, alGet?_eq_none_of_not_contains hc]
    · by_cases hv : v = 0
      · rw [remapObjInProps, if_pos hv, ih h2]
        rfl
      · rw [remapObjInProps, if_neg hv]
        cases hg : alGet? m v with
        | none => rfl
        | some w =>
          rw [ih h2]
          rfl
  | case3 n st val rest ihv ihr =>
    intro h
    rw [hasUnmappedObj] at h
    rcases Bool.or_eq_true_iff.mp h with h1 | h2
    · rw [remapObjInProps, ihv h1]
    · rw [remapObjInProps, ihr h2]
      cases remapObjInProps m val <;> rfl
  | case4 n val rest ihv ihr =>
    intro h
    rw [hasUnmappedObj] at h
    rcases Bool.or_eq_true_iff.mp h with h1 | h2
    · rw [remapObjInProps, ihv h1]
    · rw [remapObjInProps, ihr h2]
      cases remapObjInProps m val <;> rfl
  | case5 p rest hno hns hna ih =>
    intro h
    have hrest : hasUnmappedObj m rest = true := by
      cases p with
      | nameProp a b => rw [hasUnmappedObj] at h <;> assumption
      | vectorProp a b => rw [hasUnmappedObj] at h <;> assumption
      | rotatorProp a b => rw [hasUnmappedObj] at h <;> assumption
      | byteProp a => rw [hasUnmappedObj] at h <;> assumption
      | floatProp a => rw [hasUnmappedObj] at h <;> assumption
      | intProp a => rw [hasUnmappedObj] at h <;> assumption
      | boolProp a => rw [hasUnmappedObj] at h <;> assumption
      | enumProp a b c => rw [hasUnmappedObj] at h <;> assumption
      | multicastProp a => rw [hasUnmappedObj] at h <;> assumption
      | otherProp a => rw [hasUnmappedObj] at h <;> assumption
      | objectProp a b => exact absurd rfl (hno a b)
      | structProp a b c => exact absurd rfl (hns a b c)
      | arrayProp a b => exact absurd rfl (hna a b)
    cases p with
    | nameProp a b =>
      rw [remapObjInProps, ih hrest] <;> try assumption
      rfl
    | vectorProp a b =>
      rw [remapObjInProps, ih hrest] <;> try assumption
      rfl
    | rotatorProp a b =>
      rw [remapObjInProps, ih hrest] <;> try assumption
      rfl
    | byteProp a =>
      rw [remapObjInProps, ih hrest] <;> try assumption
      rfl
    | floatProp a =>
      rw [remapObjInProps, ih hrest] <;> try assumption
      rfl
    | intProp a =>
      rw [remapObjInProps, ih hrest] <;> try assumption
      rfl
    | boolProp a =>
      rw [remapObjInProps, ih hrest] <;> try assumption
      rfl
    | enumProp a b c =>
      rw [remapObjInProps, ih hrest] <;> try assumption
      rfl
    | multicastProp a =>
      rw [remapObjInProps, ih hrest] <;> try assumption
      rfl
    | otherProp a =>
      rw [remapObjInProps, ih hrest] <;> try assumption
      rfl
    | objectProp a b => exact absurd rfl (hno a b)
    | structProp a b c => exact absurd rfl (hns a b c)
    | arrayProp a b => exact absurd rfl (hna a b)

/-- C4: when an Object property reachable through Struct and Array nesting
holds a nonzero reference index absent from the combined table, the
property rewriting pass panics (models as `none`) — unlike the base-record
remap, which passes an absent index through unchanged. -/
theorem objProp_unmapped_panics (m : List (Int × Int)) (props : List UProperty) (i : Int) :
    (hasUnmappedObj m props = true → remapObjInProps m props = none)
    ∧ (alContains m i = false → remapIdx m i = i) := by
  constructor
  · exact hasUnmapped_remap_none m props
  · intro h
    rw [remapIdx, alGet?_eq_none_of_not_contains h]
    rfl

/-- C4 witness: with table `{1 ↦ 6}` an Object property holding index 5
nested inside a Struct aborts the rewriting pass, while the base-record
remap of the same index 5 passes it through. -/
theorem objProp_unmapped_panics_witness :
    remapObjInProps [((1 : Int), (6 : Int))]
        [UProperty.structProp 0 none [UProperty.objectProp 0 5]] = none
      ∧ remapIdx [((1 : Int), (6 : Int))] 5 = 5 := by
  have h := objProp_unmapped_panics [((1 : Int), (6 : Int))]
    [UProperty.structProp 0 none [UProperty.objectProp 0 5]] 5
  refine ⟨h.1 ?_, h.2 ?_⟩
  · simp [hasUnmappedObj, alContains]
  · rfl

end Uedit
